import Mathlib

/-!
Verification of the queue/state-machine subsystem of the RandomMemesId
submission pipeline.

The MongoDB `queue` collection is modelled as a `List Record` in natural
(insertion) order: Mongo assigns each inserted document a monotonically
increasing `_id`, so the list position of a record plays the role of its
`_id`.  A Mongo query with `sort=[("priority", 1), ("_id", 1)]` is
modelled as sorting the matching (position, record) pairs by the
lexicographic order on (priority, position); since positions are
distinct this order is total and antisymmetric, so any correct sort
(here `List.insertionSort`) yields exactly the list Mongo returns.

`update_one(filter, set)` updates the first matching document in natural
order, `update_many` updates every matching document, `insert_one`
appends.  Timestamps (`datetime.now()`) are passed in explicitly as
`Nat` parameters.  Fallible external effects (image/video conversion,
the Instagram publisher, Discord attachment saving) are passed in as
explicit result-valued oracles.
-/

namespace RMQ

open scoped List

/-- `author` subdocument of a queue record (bot.py `_process_attachments`). -/
structure Author where
  id : Int
  name : String
deriving DecidableEq, Repr

/-- Stored attachment metadata (bot.py `_save_attachment` plus the `type`
field added in `_process_attachments`). -/
structure Attachment where
  id : Int
  ext : String
  filename : String
  type : String
deriving DecidableEq, Repr

/-- One document of the Mongo `queue` collection, with the fields written
by bot.py `_process_attachments` (the shape also read and updated by
queue.py and worker.py).  `date` and `updated_at` are abstract
timestamps. -/
structure Record where
  id : Int
  author : Author
  caption : Option String
  attachments : List Attachment
  date : Nat
  status : String
  priority : Int
  stop : Bool
  error : List String
  reacted : Bool
  updated_at : Option Nat
  log_message_id : Option Int
deriving DecidableEq, Repr

/-- The `queue` collection in natural (insertion = `_id`) order. -/
abbrev Store := List Record

/-- The filter `{"stop": False, "status": "pending"}` shared by
`QueueManager.get_first`, `QueueManager.get_priority_all` and
`WorkerClient._get_next_queue_item`. -/
def pendingFilter (r : Record) : Bool :=
  !r.stop && r.status == "pending"

/-- Documents matching `pendingFilter`, paired with their position
(= `_id`) in the collection. -/
def pendingEnum (st : Store) : List (Nat × Record) :=
  st.enum.filter (fun x => pendingFilter x.2)

/-- The Mongo sort key `[("priority", 1), ("_id", 1)]`: lexicographic on
(priority, position). -/
def queueLe (a b : Nat × Record) : Prop :=
  a.2.priority < b.2.priority ∨ (a.2.priority = b.2.priority ∧ a.1 ≤ b.1)

/-- Strict version of `queueLe`. -/
def queueLt (a b : Nat × Record) : Prop :=
  a.2.priority < b.2.priority ∨ (a.2.priority = b.2.priority ∧ a.1 < b.1)

instance : DecidableRel queueLe := fun _ _ =>
  inferInstanceAs (Decidable (_ ∨ _))

instance : DecidableRel queueLt := fun _ _ =>
  inferInstanceAs (Decidable (_ ∨ _))

instance : IsTrans (Nat × Record) queueLe where
  trans := by
    intro a b c hab hbc
    rcases hab with h1 | ⟨h1, h1'⟩ <;> rcases hbc with h2 | ⟨h2, h2'⟩ <;>
      simp only [queueLe] <;> omega

instance : IsTotal (Nat × Record) queueLe where
  total := by
    intro a b
    simp only [queueLe]
    omega

/-- The result of the sorted query
`find({"stop": False, "status": "pending"}).sort([("priority",1),("_id",1)])`,
with positions still attached. -/
def sortedPending (st : Store) : List (Nat × Record) :=
  (pendingEnum st).insertionSort queueLe

/-- queue.py:52-58, `QueueManager.get_priority_all` (the documents of the
sorted pending query, in order). -/
def get_priority_all (st : Store) : List Record :=
  (sortedPending st).map (fun x => x.2)

/-- queue.py:68-70, `QueueManager.get_first`:
`find_one({"stop": False, "status": "pending"}, sort=[("priority",1),("_id",1)])`. -/
def get_first (st : Store) : Option Record :=
  ((sortedPending st).head?).map (fun x => x.2)

/-- worker.py:121-124, `WorkerClient._get_next_queue_item`: the identical
`find_one` query issued by the worker process. -/
def get_next_queue_item (st : Store) : Option Record :=
  ((sortedPending st).head?).map (fun x => x.2)

/-- queue.py:40-42, `QueueManager.add`: `insert_one` appends in natural
order. -/
def add (r : Record) (st : Store) : Store :=
  st ++ [r]

/-- Mongo `update_one(filter, {"$set": ...})`: update the first document
matching the filter, in natural order. -/
def updateFirst (p : Record → Bool) (f : Record → Record) : Store → Store
  | [] => []
  | r :: rest => if p r then f r :: rest else r :: updateFirst p f rest

/-- queue.py:80-82, `QueueManager.update_status`: sets only the `status`
field. -/
def update_status (id_ : Int) (status : String) (st : Store) : Store :=
  updateFirst (fun r => r.id == id_) (fun r => { r with status := status }) st

/-- worker.py:175-186, `WorkerClient._update_queue_status`: sets `status`,
`reacted = False` and `updated_at = now`. -/
def update_queue_status (item_id : Int) (status : String) (now : Nat) (st : Store) : Store :=
  updateFirst (fun r => r.id == item_id)
    (fun r => { r with status := status, reacted := false, updated_at := some now }) st

/-- worker.py:161-173, `WorkerClient._handle_processing_failure`: sets
`status = "failed"`, `stop = True`, `error = [str(error)]` and
`updated_at = now`. -/
def handle_processing_failure (item_id : Int) (errMsg : String) (now : Nat) (st : Store) : Store :=
  updateFirst (fun r => r.id == item_id)
    (fun r => { r with status := "failed", stop := true, error := [errMsg],
                       updated_at := some now }) st

/-- One iteration of the loop in queue.py:93-95: for the pair
`(idx, item_id)` run `update_one({"id": item_id}, {"$set": {"priority": idx - total}})`. -/
def set_priority_step (total : Nat) (st : Store) (p : Nat × Int) : Store :=
  updateFirst (fun r => r.id == p.2)
    (fun r => { r with priority := (p.1 : Int) - (total : Int) }) st

/-- queue.py:88-101, `QueueManager.set_priority`: for each listed id (with
its index) set `priority = idx - total`, then
`update_many({"id": {"$nin": ids}}, {"$set": {"priority": 0}})`. -/
def set_priority (ids : List Int) (st : Store) : Store :=
  let total := ids.length
  let st1 := ids.enum.foldl (set_priority_step total) st
  st1.map (fun r => if r.id ∈ ids then r else { r with priority := 0 })

/-- Position of the first occurrence of `i` in a list of ids (the value of
Python's `enumerate` index for `i` in `set_priority`'s loop); used only
to state the priority characterization. -/
def idxOf (i : Int) : List Int → Nat
  | [] => 0
  | j :: rest => if j = i then 0 else idxOf i rest + 1

/-! ### Worker (worker.py `WorkerClient.upload_media`) -/

/-- Observable external effects of one worker invocation: status-setting
database writes, and removal of the media directory
`../.queue/media/{id}` (worker.py:188-192 `_cleanup_media`). -/
inductive Event where
  | statusWrite (id : Int) (s : String)
  | mediaDelete (id : Int)
deriving DecidableEq, Repr

/-- Result of one `upload_media` invocation: the Python return value, the
resulting collection, and the effect trace in order. -/
structure WorkerRun where
  ok : Bool
  store : Store
  events : List Event
deriving Repr

/-- worker.py:126-137, `WorkerClient._process_media`: dispatch on the
stored media type; photos go to `_convert_photo`, videos to
`_convert_video` (both fallible external conversions, passed as
oracles returning either the converted path or the exception text);
any other type raises `ValueError`. -/
def process_media (convPhoto convVideo : Attachment → Except String String)
    (a : Attachment) : Except String String :=
  if a.type == "PHOTO" then convPhoto a
  else if a.type == "VIDEO" then convVideo a
  else Except.error ("Unsupported media type: " ++ a.type)

/-- worker.py:90-96, the conversion loop of `upload_media`: convert each
attachment in order; the first failure aborts the whole item (the
caught exception is re-raised). -/
def convertAll (convPhoto convVideo : Attachment → Except String String) :
    List Attachment → Except String (List String)
  | [] => Except.ok []
  | a :: rest =>
    match process_media convPhoto convVideo a with
    | Except.error e => Except.error e
    | Except.ok p =>
      match convertAll convPhoto convVideo rest with
      | Except.error e => Except.error e
      | Except.ok ps => Except.ok (p :: ps)

/-- worker.py:73-119, `WorkerClient.upload_media`.  `pub` is the
opaque publisher call (`album_upload` / `photo_upload` /
`video_upload`), which either returns or raises; `now` is the
invocation's timestamp.  All exceptions inside the `try` land in the
`except` clause, which runs `_handle_processing_failure` and returns
`False`.  An empty queue returns `False` with no effects.  With an
empty attachment list, `item['attachments'][0]` raises `IndexError`
('list index out of range') which is caught by the same handler. -/
def upload_media (convPhoto convVideo : Attachment → Except String String)
    (pub : Except String Unit) (now : Nat) (st : Store) : WorkerRun :=
  match get_next_queue_item st with
  | none => { ok := false, store := st, events := [] }
  | some item =>
    match item.attachments with
    | [] =>
      { ok := false,
        store := handle_processing_failure item.id "list index out of range" now st,
        events := [Event.statusWrite item.id "failed"] }
    | a0 :: rest =>
      let mediaType := if (a0 :: rest).length > 1 then "ALBUM" else a0.type
      match convertAll convPhoto convVideo (a0 :: rest) with
      | Except.error e =>
        { ok := false,
          store := handle_processing_failure item.id e now st,
          events := [Event.statusWrite item.id "failed"] }
      | Except.ok converted =>
        if converted.isEmpty then
          { ok := false,
            store := handle_processing_failure item.id
              ("Unknown error " ++ toString item.id ++ " (empty media)") now st,
            events := [Event.statusWrite item.id "failed"] }
        else
          let st1 := update_queue_status item.id "uploading" now st
          let pubRes : Except String Unit :=
            if converted.length > 1 then pub
            else if mediaType == "PHOTO" then pub
            else if mediaType == "VIDEO" then pub
            else Except.ok ()
          match pubRes with
          | Except.error e =>
            { ok := false,
              store := handle_processing_failure item.id e now st1,
              events := [Event.statusWrite item.id "uploading",
                         Event.statusWrite item.id "failed"] }
          | Except.ok _ =>
            { ok := true,
              store := update_queue_status item.id "success" now st1,
              events := [Event.statusWrite item.id "uploading",
                         Event.statusWrite item.id "success",
                         Event.mediaDelete item.id] }

/-! ### Intake (bot.py `BotClient.on_message`) -/

/-- An inbound Discord attachment as seen by the bot. -/
structure BAttachment where
  id : Int
  filename : String
  contentType : String
  size : Nat
deriving DecidableEq, Repr

/-- An inbound Discord message as seen by `on_message`. -/
structure BMessage where
  id : Int
  authorId : Int
  authorBot : Bool
  authorName : String
  guildId : Int
  channelId : Int
  content : String
  attachments : List BAttachment
deriving DecidableEq, Repr

/-- The relevant bot configuration values. -/
structure BotConfig where
  guild_id : Int
  submit_channel_id : Int
deriving DecidableEq, Repr

/-- utils.py:3-10, `MediaConfig`: the MIME-type allow-list. -/
def MediaConfig (contentType : String) : Option String :=
  if contentType == "image/jpeg" then some "PHOTO"
  else if contentType == "image/png" then some "PHOTO"
  else if contentType == "video/mp4" then some "VIDEO"
  else if contentType == "video/mpeg" then some "VIDEO"
  else if contentType == "video/x-matroska" then some "VIDEO"
  else if contentType == "video/quicktime" then some "VIDEO"
  else none

/-- utils.py:12-19, `Media.validate`. -/
structure Validation where
  status : Bool
  type : Option String
deriving DecidableEq, Repr

def validate (a : BAttachment) : Validation :=
  { status := (MediaConfig a.contentType).isSome, type := MediaConfig a.contentType }

/-- bot.py:92-102, `BotClient._is_valid_message`: reject empty attachment
lists and more than 10 attachments. -/
def is_valid_message (m : BMessage) : Bool :=
  if m.attachments.isEmpty then false
  else if m.attachments.length > 10 then false
  else true

/-- bot.py:111-121, `BotClient._should_ignore_message`. -/
def should_ignore_message (cfg : BotConfig) (botUserId : Int) (m : BMessage) : Bool :=
  (m.authorBot || m.authorId == botUserId) ||
    (m.guildId != cfg.guild_id) || (m.channelId != cfg.submit_channel_id)

/-- bot.py:123-136, `BotClient._validate_attachments`: returns `[]` as soon
as one attachment is invalid, otherwise the id/validation pairs of all
attachments (the early return on the first invalid attachment yields
the same value as this any-test). -/
def validate_attachments (atts : List BAttachment) : List (Int × Validation) :=
  if atts.any (fun a => !(validate a).status) then []
  else atts.map (fun a => (a.id, validate a))

/-- bot.py:176-217, `BotClient._process_attachments`: save each attachment
in order (`saveOk` is the fallible Discord download, `extOf` is
`os.path.splitext`'s extension part), collecting metadata for saved
attachments and error strings for failed saves, then build the
database entry.  A failed save yields `status = "error"`,
`stop = True`. -/
def process_attachments (saveOk : BAttachment → Bool) (extOf : String → String)
    (now : Nat) (m : BMessage) (media_type : List (Int × Validation)) : Record :=
  let step := fun (acc : List Attachment × List String) (p : Nat × BAttachment) =>
    let tname :=
      match media_type.find? (fun q => q.1 == p.2.id) with
      | some q => q.2.type.getD "UNKNOWN"
      | none => "UNKNOWN"
    if saveOk p.2 then
      (acc.1 ++ [{ id := p.2.id, ext := extOf p.2.filename,
                   filename := toString p.1 ++ "_" ++ toString m.id ++ "_" ++
                     toString p.2.id ++ extOf p.2.filename,
                   type := tname }], acc.2)
    else
      (acc.1, acc.2 ++ ["Failed to save attachment " ++ toString p.2.id])
  let res := (m.attachments.enumFrom 1).foldl step ([], [])
  { id := m.id,
    author := { id := m.authorId, name := m.authorName },
    caption := if m.content.length > 0 then some m.content else none,
    attachments := res.1,
    date := now,
    status := if res.2.isEmpty then "pending" else "error",
    priority := 0,
    stop := !res.2.isEmpty,
    error := res.2,
    reacted := false,
    updated_at := none,
    log_message_id := none }

/-- The externally visible outcome of `on_message` for one inbound
message: ignored (bot/self/foreign channel), source message deleted
with no queue record created, or a record queued. -/
inductive Outcome where
  | ignored
  | deleted
  | queued (entry : Record)
deriving DecidableEq, Repr

/-- bot.py:62-80, `BotClient.on_message`. -/
def on_message (cfg : BotConfig) (botUserId : Int) (saveOk : BAttachment → Bool)
    (extOf : String → String) (now : Nat) (m : BMessage) : Outcome :=
  if should_ignore_message cfg botUserId m then Outcome.ignored
  else if !(is_valid_message m) then Outcome.deleted
  else
    let media_type := validate_attachments m.attachments
    if media_type.isEmpty then Outcome.deleted
    else Outcome.queued (process_attachments saveOk extOf now m media_type)

/-! ### Concrete sample data (used by witnesses and counterexamples) -/

/-- A queue record with the given id, priority, status and stop flag and
default values elsewhere, as built by the intake path. -/
def sampleRec (i : Int) (prio : Int) (status : String) (stopFlag : Bool) : Record :=
  { id := i, author := { id := 1, name := "u" }, caption := none,
    attachments := [], date := 0, status := status, priority := prio,
    stop := stopFlag, error := [], reacted := false, updated_at := none,
    log_message_id := none }

/-- A stored attachment with the given id and media type. -/
def sampleAtt (i : Int) (t : String) : Attachment :=
  { id := i, ext := ".jpg", filename := "1_0_1.jpg", type := t }

/-- Two pending, unstopped, priority-0 records inserted with descending
application-level ids: insertion order is [5, 3]. -/
def c1a : Record := sampleRec 5 0 "pending" false

def c1b : Record := sampleRec 3 0 "pending" false

def c1store : Store := [c1a, c1b]

/-- A pending record carrying `reacted = true` (e.g. a record whose
"uploading" status was already acknowledged by the reconciler). -/
def c4rec : Record := { sampleRec 7 0 "uploading" false with reacted := true }

def c4store : Store := [c4rec]

/-- A store holding one pending record with a single photo attachment. -/
def wRec : Record :=
  { sampleRec 101 0 "pending" false with attachments := [sampleAtt 1 "PHOTO"] }

def wStore : Store := [wRec]

/-- A conversion oracle that always succeeds. -/
def convOk : Attachment → Except String String := fun a => Except.ok a.filename

/-- A conversion oracle that always fails. -/
def convBad : Attachment → Except String String := fun _ => Except.error "boom"

/-- A stopped record together with a live one (for the dequeue-exclusion
witnesses). -/
def c2stopped : Record := sampleRec 11 0 "pending" true

def c2live : Record := sampleRec 12 0 "pending" false

def c2store : Store := [c2stopped, c2live]

/-- Store for the set_priority witness: three pending records inserted in
id order 21, 22, 23. -/
def c3r1 : Record := sampleRec 21 0 "pending" false

def c3r2 : Record := sampleRec 22 0 "pending" false

def c3r3 : Record := sampleRec 23 0 "pending" false

def c3store : Store := [c3r1, c3r2, c3r3]

/-- A valid inbound message: one jpeg attachment. -/
def bAttJpeg : BAttachment :=
  { id := 31, filename := "a.jpg", contentType := "image/jpeg", size := 10 }

/-- An attachment with a disallowed MIME type. -/
def bAttBad : BAttachment :=
  { id := 32, filename := "a.gif", contentType := "image/gif", size := 10 }

def bCfg : BotConfig := { guild_id := 1, submit_channel_id := 2 }

/-- A non-ignored message carrying one disallowed attachment. -/
def bMsgBad : BMessage :=
  { id := 41, authorId := 9, authorBot := false, authorName := "u",
    guildId := 1, channelId := 2, content := "", attachments := [bAttBad] }

/-- A non-ignored message carrying 11 valid attachments. -/
def bMsg11 : BMessage :=
  { id := 42, authorId := 9, authorBot := false, authorName := "u",
    guildId := 1, channelId := 2, content := "",
    attachments := (List.range 11).map (fun k =>
      { id := (100 + k : Int), filename := "a.jpg", contentType := "image/jpeg",
        size := 10 }) }

/-! ## General list lemmas -/

theorem le_fst_of_mem_enumFrom {α : Type} {x : Nat × α} {n : Nat} {l : List α}
    (h : x ∈ l.enumFrom n) : n ≤ x.1 := by
  induction l generalizing n with
  | nil => simp at h
  | cons a as ih =>
    simp only [List.enumFrom_cons, List.mem_cons] at h
    rcases h with h | h
    · simp [h]
    · exact Nat.le_of_succ_le (ih h)

theorem get?_of_mem_enumFrom {α : Type} {x : Nat × α} {n : Nat} {l : List α}
    (h : x ∈ l.enumFrom n) : l.get? (x.1 - n) = some x.2 := by
  induction l generalizing n with
  | nil => simp at h
  | cons a as ih =>
    simp only [List.enumFrom_cons, List.mem_cons] at h
    rcases h with h | h
    · simp [h]
    · have h1 := le_fst_of_mem_enumFrom h
      have h2 := ih h
      have h3 : x.1 - n = (x.1 - (n + 1)) + 1 := by omega
      rw [h3]
      simpa using h2

theorem pairwise_fst_lt_enumFrom {α : Type} (n : Nat) (l : List α) :
    (l.enumFrom n).Pairwise (fun a b => a.1 < b.1) := by
  induction l generalizing n with
  | nil => simp
  | cons a as ih =>
    simp only [List.enumFrom_cons]
    refine List.Pairwise.cons ?_ (ih (n + 1))
    intro b hb
    exact Nat.lt_of_succ_le (le_fst_of_mem_enumFrom hb)

theorem map_snd_filter_enumFrom {α : Type} (q : α → Bool) (n : Nat) (l : List α) :
    ((l.enumFrom n).filter (fun x => q x.2)).map (fun x => x.2) = l.filter q := by
  induction l generalizing n with
  | nil => simp
  | cons a as ih =>
    simp only [List.enumFrom_cons, List.filter_cons]
    by_cases h : q a
    · simp only [h, if_pos]
      simp [ih]
    · simp only [h]
      simp [ih]

/-! ## Properties of the sorted pending query -/

theorem queueLe_refl (a : Nat × Record) : queueLe a a :=
  Or.inr ⟨rfl, Nat.le_refl _⟩

theorem mem_pendingEnum {st : Store} {x : Nat × Record} (h : x ∈ pendingEnum st) :
    st.get? x.1 = some x.2 ∧ x.2.stop = false ∧ x.2.status = "pending" := by
  have h1 := List.mem_filter.mp h
  have h2 : st.get? (x.1 - 0) = some x.2 := get?_of_mem_enumFrom h1.1
  have h3 := h1.2
  simp only [pendingFilter, Bool.and_eq_true, Bool.not_eq_true',
    beq_iff_eq] at h3
  exact ⟨by simpa using h2, h3.1, h3.2⟩

theorem pendingEnum_pairwise_fst_lt (st : Store) :
    (pendingEnum st).Pairwise (fun a b => a.1 < b.1) :=
  (pairwise_fst_lt_enumFrom 0 st).filter _

theorem mem_pendingEnum_iff {st : Store} {x : Nat × Record} :
    x ∈ pendingEnum st ↔
      st.get? x.1 = some x.2 ∧ x.2.stop = false ∧ x.2.status = "pending" := by
  constructor
  · exact mem_pendingEnum
  · intro ⟨h1, h2, h3⟩
    refine List.mem_filter.mpr ⟨?_, ?_⟩
    · exact List.mem_enum_iff_get?.mpr (by simpa using h1)
    · simp [pendingFilter, h2, h3]

theorem sortedPending_perm (st : Store) : sortedPending st ~ pendingEnum st :=
  List.perm_insertionSort _ _

theorem sortedPending_sorted (st : Store) : (sortedPending st).Pairwise queueLe :=
  List.sorted_insertionSort _ _

theorem mem_sortedPending {st : Store} {x : Nat × Record} :
    x ∈ sortedPending st ↔ x ∈ pendingEnum st :=
  List.mem_insertionSort _

theorem sortedPending_fst_nodup (st : Store) :
    ((sortedPending st).map Prod.fst).Nodup := by
  have h1 : pendingEnum st <+ st.enum := List.filter_sublist _
  have h2 : (pendingEnum st).map Prod.fst <+ st.enum.map Prod.fst :=
    h1.map Prod.fst
  have h3 : ((pendingEnum st).map Prod.fst).Nodup :=
    h2.nodup (List.nodup_enum_map_fst st)
  exact ((sortedPending_perm st).map Prod.fst).nodup_iff.mpr h3

theorem sortedPending_pairwise_lt (st : Store) :
    (sortedPending st).Pairwise queueLt := by
  have hle := sortedPending_sorted st
  have hne : (sortedPending st).Pairwise (fun a b => a.1 ≠ b.1) :=
    List.pairwise_map.mp (sortedPending_fst_nodup st)
  refine (hle.and hne).imp ?_
  intro a b ⟨h1, h2⟩
  rcases h1 with h1 | ⟨h1, h1'⟩
  · exact Or.inl h1
  · exact Or.inr ⟨h1, Nat.lt_of_le_of_ne h1' h2⟩

theorem head?_sortedPending_le {st : Store} {a : Nat × Record}
    (h : (sortedPending st).head? = some a) :
    ∀ b ∈ pendingEnum st, queueLe a b := by
  intro b hb
  cases hsp : sortedPending st with
  | nil => rw [hsp] at h; simp at h
  | cons x t =>
    rw [hsp] at h
    simp only [List.head?_cons, Option.some.injEq] at h
    subst h
    have hmem : b ∈ sortedPending st := mem_sortedPending.mpr hb
    rw [hsp] at hmem
    rcases List.mem_cons.mp hmem with h | h
    · subst h; exact queueLe_refl b
    · have := sortedPending_sorted st
      rw [hsp] at this
      exact (List.pairwise_cons.mp this).1 b h

theorem get_first_eq_none_iff {st : Store} :
    get_first st = none ↔ pendingEnum st = [] := by
  unfold get_first
  constructor
  · intro h
    have h1 : (sortedPending st).head? = none := by
      cases hh : (sortedPending st).head? with
      | none => rfl
      | some a => rw [hh] at h; simp at h
    have h2 : sortedPending st = [] := by
      cases hsp : sortedPending st with
      | nil => rfl
      | cons x t => rw [hsp] at h1; simp at h1
    have h3 := sortedPending_perm st
    rw [h2] at h3
    exact h3.symm.eq_nil
  · intro h
    have h2 : sortedPending st = [] := by
      have h3 := sortedPending_perm st
      rw [h] at h3
      exact h3.eq_nil
    rw [h2]
    rfl

theorem get_next_queue_item_eq_get_first (st : Store) :
    get_next_queue_item st = get_first st := rfl

theorem get_first_mem {st : Store} {r : Record} (h : get_first st = some r) :
    r ∈ st ∧ r.stop = false ∧ r.status = "pending" := by
  unfold get_first at h
  cases hh : (sortedPending st).head? with
  | none => rw [hh] at h; simp at h
  | some a =>
    rw [hh] at h
    simp only [Option.map_some', Option.some.injEq] at h
    subst h
    have hmem : a ∈ sortedPending st := by
      cases hsp : sortedPending st with
      | nil => rw [hsp] at hh; simp at hh
      | cons x t =>
        rw [hsp] at hh
        simp only [List.head?_cons, Option.some.injEq] at hh
        rw [hh]
        exact List.mem_cons_self _ _
    have hpe := mem_pendingEnum (mem_sortedPending.mp hmem)
    exact ⟨List.get?_mem hpe.1, hpe.2.1, hpe.2.2⟩

theorem mem_get_priority_all {st : Store} {r : Record}
    (h : r ∈ get_priority_all st) :
    r ∈ st ∧ r.stop = false ∧ r.status = "pending" := by
  unfold get_priority_all at h
  obtain ⟨x, hx, hxr⟩ := List.mem_map.mp h
  have hpe := mem_pendingEnum (mem_sortedPending.mp hx)
  subst hxr
  exact ⟨List.get?_mem hpe.1, hpe.2.1, hpe.2.2⟩

/-! ## updateFirst lemmas -/

theorem updateFirst_id_eq_map (i : Int) (f : Record → Record) (st : Store)
    (hN : (st.map Record.id).Nodup) :
    updateFirst (fun r => r.id == i) f st =
      st.map (fun r => if r.id = i then f r else r) := by
  induction st with
  | nil => rfl
  | cons r rest ih =>
    simp only [List.map_cons, List.nodup_cons] at hN
    unfold updateFirst
    by_cases h : r.id = i
    · simp only [h, beq_self_eq_true, if_pos, List.map_cons, if_pos rfl]
      have hrest : ∀ r' ∈ rest, (if r'.id = i then f r' else r') = r' := by
        intro r' hr'
        have : r'.id ≠ i := by
          intro hc
          exact hN.1 (List.mem_map.mpr ⟨r', hr', by rw [hc, h]⟩)
        simp [this]
      rw [List.map_congr_left hrest]
      simp
    · have hbeq : (r.id == i) = false := by simpa using h
      simp only [hbeq, Bool.false_eq_true, if_neg, List.map_cons, if_neg h]
      rw [ih hN.2]
      simp

theorem updateFirst_comp (p : Record → Bool) (f g : Record → Record) (st : Store)
    (h : ∀ r, p r = true → p (f r) = true) :
    updateFirst p g (updateFirst p f st) = updateFirst p (fun r => g (f r)) st := by
  induction st with
  | nil => rfl
  | cons r rest ih =>
    by_cases hp : p r = true
    · simp [updateFirst, hp, h r hp]
    · have hp' : p r = false := by simpa using hp
      simp [updateFirst, hp', ih]

/-!
## C2: records with `stop = true` are never dequeued

The three dequeue operations all query with the filter
`{"stop": False, "status": "pending"}`.
-/

/-- C2: for every store state and every record whose `stop` flag is true,
neither `get_first`, nor `get_priority_all`, nor the worker's
`_get_next_queue_item` ever returns that record, regardless of its
`status` field. -/
theorem C2_stopped_never_dequeued (st : Store) (r : Record) (h : r.stop = true) :
    get_first st ≠ some r ∧ r ∉ get_priority_all st ∧
      get_next_queue_item st ≠ some r := by
  refine ⟨?_, ?_, ?_⟩
  · intro hc
    have := (get_first_mem hc).2.1
    rw [h] at this
    exact Bool.true_eq_false.mp this
  · intro hc
    have := (mem_get_priority_all hc).2.1
    rw [h] at this
    exact Bool.true_eq_false.mp this
  · intro hc
    rw [get_next_queue_item_eq_get_first] at hc
    have := (get_first_mem hc).2.1
    rw [h] at this
    exact Bool.true_eq_false.mp this

/-- Witness for C2: in the concrete store `c2store`, the stopped record
`c2stopped` (whose status is "pending") is not returned by any dequeue
operation. -/
theorem C2_stopped_never_dequeued_witness :
    c2stopped.stop = true ∧
      (get_first c2store ≠ some c2stopped ∧ c2stopped ∉ get_priority_all c2store ∧
        get_next_queue_item c2store ≠ some c2stopped) :=
  ⟨by decide, C2_stopped_never_dequeued c2store c2stopped (by decide)⟩

/-!
## C1: dequeue order

Mongo sorts on `[("priority", 1), ("_id", 1)]`.  The `_id` tie-break is
insertion order, not the application-level `id` field, so the claim as
stated — minimality in the lexicographic order (priority, id) — fails
on a store whose records were inserted with descending ids.
-/

/-- Counterexample for C1: in `c1store`, records with ids 5 and 3 (both
pending, unstopped, priority 0) were inserted in that order.  The
record minimal under (priority asc, id asc) has id 3, but `get_first`
returns the record with id 5, and the full dequeue sequence yields ids
[5, 3], which is not ascending in id. -/
theorem C1_counterexample :
    c1store.map (fun r => (r.id, r.priority, r.stop, r.status)) =
        [(5, 0, false, "pending"), (3, 0, false, "pending")] ∧
      (get_first c1store).map Record.id = some 5 ∧
      (get_priority_all c1store).map Record.id = [5, 3] := by
  refine ⟨by decide, by decide, by decide⟩

/-- C1 (amended): `get_first` (= `nextPending()` = the worker's
`_get_next_queue_item`) returns the record with `stop = false`,
`status = "pending"` whose (priority, insertion position) pair is
lexicographically minimal — priority ascending with the Mongo `_id`
(insertion order) as tie-break, not the application-level `id` field —
or `none` exactly when no such record exists; and the sorted dequeue
sequence is strictly increasing in (priority, insertion position).
When records are inserted with ascending ids (the normal intake
order), this coincides with (priority asc, id asc). -/
theorem C1_get_first_minimal (st : Store) :
    (∀ x : Nat × Record, x ∈ pendingEnum st ↔
        st.get? x.1 = some x.2 ∧ x.2.stop = false ∧ x.2.status = "pending") ∧
    (∀ a : Nat × Record, (sortedPending st).head? = some a →
        get_first st = some a.2 ∧ a ∈ pendingEnum st ∧
          ∀ b ∈ pendingEnum st, queueLe a b) ∧
    (get_first st = none ↔ pendingEnum st = []) ∧
    (sortedPending st).Pairwise queueLt ∧
    get_priority_all st = (sortedPending st).map (fun x => x.2) := by
  refine ⟨fun x => mem_pendingEnum_iff, ?_, get_first_eq_none_iff, sortedPending_pairwise_lt st, rfl⟩
  intro a ha
  refine ⟨?_, ?_, head?_sortedPending_le ha⟩
  · unfold get_first
    rw [ha]
    rfl
  · have hmem : a ∈ sortedPending st := by
      cases hsp : sortedPending st with
      | nil => rw [hsp] at ha; simp at ha
      | cons x t =>
        rw [hsp] at ha
        simp only [List.head?_cons, Option.some.injEq] at ha
        rw [ha]
        exact List.mem_cons_self _ _
    exact mem_sortedPending.mp hmem

/-- Witness for C1 (amended), at the concrete store `c1store`: the head of
the sorted query is the pair (0, c1a) (position 0, the first-inserted
record), `get_first` returns `c1a`, and the head is `queueLe`-below the
other pending pair (1, c1b). -/
theorem C1_get_first_minimal_witness :
    (sortedPending c1store).head? = some (0, c1a) ∧
      get_first c1store = some c1a ∧ (0, c1a) ∈ pendingEnum c1store ∧
      (1, c1b) ∈ pendingEnum c1store ∧ queueLe (0, c1a) (1, c1b) := by
  have h := (C1_get_first_minimal c1store).2.1 (0, c1a) (by decide)
  exact ⟨by decide, h.1, h.2.1, by decide, h.2.2 (1, c1b) (by decide)⟩

/-!
## C4: which writes reset `reacted`

worker.py `_update_queue_status` sets `status`, `reacted = False`,
`updated_at = now`, but worker.py `_handle_processing_failure` (the
markFailed write) does not touch `reacted`, and queue.py
`QueueManager.update_status` sets only `status`.  So it is not the case
that every status-changing write resets `reacted` and `updated_at`.
-/

/-- Counterexample for C4: a status-changing write through
`QueueManager.update_status` (queue.py:80-82) on a record with
`reacted = true` changes the status to "success" but leaves
`reacted = true` and `updated_at = none`, contradicting "the resulting
record has reacted=false and updatedAt set to the time of the write".
(The same record shows `_handle_processing_failure` leaving
`reacted = true` on its failed write.) -/
theorem C4_counterexample :
    c4rec.reacted = true ∧ c4rec.status = "uploading" ∧
      (update_status 7 "success" c4store).map
          (fun r => (r.status, r.reacted, r.updated_at)) =
        [("success", true, none)] ∧
      (handle_processing_failure 7 "e" 5 c4store).map
          (fun r => (r.status, r.stop, r.reacted, r.updated_at)) =
        [("failed", true, true, some 5)] := by
  refine ⟨by decide, by decide, by decide, by decide⟩

/-- C4 (amended): the worker's status writes (`_update_queue_status`, used
for the uploading and success transitions) set `reacted = false` and
`updated_at` to the time of the write; `_handle_processing_failure`
(the markFailed write) sets `status = "failed"`, `stop = true`,
`error`, and `updated_at`, but leaves `reacted` unchanged; and
`QueueManager.update_status` changes only the `status` field.  Stated
over stores with unique ids as the exact shape of each write. -/
theorem C4_reacted_reset (st : Store) (i : Int) (s e : String) (t : Nat)
    (hN : (st.map Record.id).Nodup) :
    update_queue_status i s t st =
        st.map (fun r => if r.id = i then
          { r with status := s, reacted := false, updated_at := some t } else r) ∧
      handle_processing_failure i e t st =
        st.map (fun r => if r.id = i then
          { r with status := "failed", stop := true, error := [e],
                   updated_at := some t } else r) ∧
      update_status i s st =
        st.map (fun r => if r.id = i then { r with status := s } else r) :=
  ⟨updateFirst_id_eq_map i _ st hN, updateFirst_id_eq_map i _ st hN,
    updateFirst_id_eq_map i _ st hN⟩

/-- Witness for C4 (amended) at the concrete store `c4store`: the worker
write resets `reacted` and stamps `updated_at`, the failure write keeps
`reacted = true`, and the QueueManager write changes only `status`. -/
theorem C4_reacted_reset_witness :
    (c4store.map Record.id).Nodup ∧
      (update_queue_status 7 "uploading" 3 c4store =
          c4store.map (fun r => if r.id = 7 then
            { r with status := "uploading", reacted := false,
                     updated_at := some 3 } else r) ∧
        handle_processing_failure 7 "e" 3 c4store =
          c4store.map (fun r => if r.id = 7 then
            { r with status := "failed", stop := true, error := ["e"],
                     updated_at := some 3 } else r) ∧
        update_status 7 "uploading" c4store =
          c4store.map (fun r => if r.id = 7 then
            { r with status := "uploading" } else r)) :=
  ⟨by decide, C4_reacted_reset c4store 7 "uploading" "e" 3 (by decide)⟩

/-!
## C5: markFailed is idempotent and terminal
-/

/-- C5: for every id present in a store with unique ids,
`_handle_processing_failure` (markFailed) sets `status = "failed"`,
`stop = true` and `error` to the given message list; re-applying it
(even at a later time) yields exactly the state of a single
application at that time; and after it runs, `get_first` (nextPending)
never returns the failed record again. -/
theorem C5_markFailed_idempotent_terminal (i : Int) (e : String) (t1 t2 : Nat)
    (st : Store) (hN : (st.map Record.id).Nodup) (hmem : i ∈ st.map Record.id) :
    handle_processing_failure i e t2 (handle_processing_failure i e t1 st) =
        handle_processing_failure i e t2 st ∧
      (∃ r ∈ handle_processing_failure i e t1 st,
        r.id = i ∧ r.status = "failed" ∧ r.stop = true ∧ r.error = [e]) ∧
      (∀ r, get_first (handle_processing_failure i e t1 st) = some r → r.id ≠ i) := by
  have hmap := updateFirst_id_eq_map i
    (fun r => { r with status := "failed", stop := true, error := [e],
                       updated_at := some t1 }) st hN
  refine ⟨?_, ?_, ?_⟩
  · unfold handle_processing_failure
    rw [updateFirst_comp _ _ _ _ (fun r h => by simpa using h)]
  · obtain ⟨r0, hr0, hr0i⟩ := List.mem_map.mp hmem
    have hin : ({ r0 with status := "failed", stop := true, error := [e],
                          updated_at := some t1 } : Record) ∈
        handle_processing_failure i e t1 st := by
      unfold handle_processing_failure
      rw [hmap]
      exact List.mem_map.mpr ⟨r0, hr0, by rw [if_pos hr0i]⟩
    exact ⟨_, hin, hr0i, rfl, rfl, rfl⟩
  · intro r hr hri
    have hmem' := get_first_mem hr
    unfold handle_processing_failure at hmem'
    rw [hmap] at hmem'
    obtain ⟨r0, hr0, hr0r⟩ := List.mem_map.mp hmem'.1
    by_cases h0 : r0.id = i
    · rw [if_pos h0] at hr0r
      have : r.stop = true := by rw [← hr0r]
      rw [hmem'.2.1] at this
      exact Bool.false_eq_true.mp this
    · rw [if_neg h0] at hr0r
      rw [← hr0r] at hri
      exact h0 hri

/-- Witness for C5 at the concrete store `c2store` and the live record's
id 12: the failed record is terminal and excluded from dequeue. -/
theorem C5_markFailed_idempotent_terminal_witness :
    (c2store.map Record.id).Nodup ∧ (12 : Int) ∈ c2store.map Record.id ∧
      (handle_processing_failure 12 "err" 9 (handle_processing_failure 12 "err" 4 c2store) =
          handle_processing_failure 12 "err" 9 c2store ∧
        (∃ r ∈ handle_processing_failure 12 "err" 4 c2store,
          r.id = 12 ∧ r.status = "failed" ∧ r.stop = true ∧ r.error = ["err"]) ∧
        (∀ r, get_first (handle_processing_failure 12 "err" 4 c2store) = some r →
          r.id ≠ 12)) :=
  ⟨by decide, by decide,
    C5_markFailed_idempotent_terminal 12 "err" 4 9 c2store (by decide) (by decide)⟩

/-! ## idxOf lemmas -/

theorem idxOf_cons_self (i : Int) (l : List Int) : idxOf i (i :: l) = 0 := by
  simp [idxOf]

theorem idxOf_cons_ne {j i : Int} (l : List Int) (h : j ≠ i) :
    idxOf i (j :: l) = idxOf i l + 1 := by
  simp [idxOf, h]

theorem idxOf_lt_length {i : Int} {l : List Int} (h : i ∈ l) :
    idxOf i l < l.length := by
  induction l with
  | nil => cases h
  | cons a t ih =>
    by_cases ha : a = i
    · simp [idxOf, ha]
    · rcases List.mem_cons.mp h with h' | h'
      · exact absurd h'.symm ha
      · simp only [idxOf, ha, if_neg, List.length_cons]
        exact Nat.succ_lt_succ (ih h')

theorem idxOf_inj {l : List Int} {x y : Int} (hx : x ∈ l) (hy : y ∈ l)
    (h : idxOf x l = idxOf y l) : x = y := by
  induction l with
  | nil => cases hx
  | cons a t ih =>
    by_cases hax : a = x
    · by_cases hay : a = y
      · rw [← hax, ← hay]
      · rw [← hax] at h
        rw [idxOf_cons_self] at h
        rw [idxOf_cons_ne t hay] at h
        simp at h
    · by_cases hay : a = y
      · rw [← hay] at h
        rw [idxOf_cons_self] at h
        rw [idxOf_cons_ne t hax] at h
        simp at h
      · rw [idxOf_cons_ne t hax, idxOf_cons_ne t hay] at h
        have hx' : x ∈ t := by
          rcases List.mem_cons.mp hx with h' | h'
          · exact absurd h'.symm hax
          · exact h'
        have hy' : y ∈ t := by
          rcases List.mem_cons.mp hy with h' | h'
          · exact absurd h'.symm hay
          · exact h'
        exact ih hx' hy' (Nat.succ_injective h)

/-! ## Positional lemmas -/

theorem nodup_get?_inj {α : Type} {l : List α} (hN : l.Nodup) {i j : Nat} {a : α}
    (hi : l.get? i = some a) (hj : l.get? j = some a) : i = j := by
  obtain ⟨hilen, hig⟩ := List.get?_eq_some.mp hi
  obtain ⟨hjlen, hjg⟩ := List.get?_eq_some.mp hj
  have hinj := List.nodup_iff_injective_get.mp hN
  have hfin : (⟨i, hilen⟩ : Fin l.length) = ⟨j, hjlen⟩ := hinj (by rw [hig, hjg])
  exact congrArg Fin.val hfin

theorem get?_id_inj {st : Store} (hN : (st.map Record.id).Nodup) {i j : Nat}
    {r s : Record} (hi : st.get? i = some r) (hj : st.get? j = some s)
    (hij : r.id = s.id) : i = j := by
  have hi' : (st.map Record.id).get? i = some r.id := by
    rw [List.get?_map, hi]
    rfl
  have hj' : (st.map Record.id).get? j = some r.id := by
    rw [List.get?_map, hj, hij]
    rfl
  exact nodup_get?_inj hN hi' hj'

/-- Splitting a `Pairwise` list along a predicate that is forward-closed
under the relation (restricted to members): the list is a block where
the predicate fails followed by a block where it holds. -/
theorem pairwise_split {α : Type} {R : α → α → Prop} {Q : α → Prop} {l : List α}
    (hp : l.Pairwise R)
    (hQ : ∀ a b, a ∈ l → b ∈ l → R a b → Q a → Q b) :
    ∃ l1 l2, l = l1 ++ l2 ∧ (∀ x ∈ l1, ¬ Q x) ∧ (∀ x ∈ l2, Q x) := by
  induction l with
  | nil => exact ⟨[], [], rfl, by simp, by simp⟩
  | cons a t ih =>
    obtain ⟨hhead, htail⟩ := List.pairwise_cons.mp hp
    by_cases hq : Q a
    · refine ⟨[], a :: t, by simp, by simp, ?_⟩
      intro x hx
      rcases List.mem_cons.mp hx with h | h
      · rw [h]; exact hq
      · exact hQ a x (List.mem_cons_self _ _) (List.mem_cons_of_mem _ h)
          (hhead x h) hq
    · obtain ⟨l1, l2, heq, h1, h2⟩ := ih htail
        (fun x y hx hy => hQ x y (List.mem_cons_of_mem _ hx) (List.mem_cons_of_mem _ hy))
      refine ⟨a :: l1, l2, by rw [heq]; rfl, ?_, h2⟩
      intro x hx
      rcases List.mem_cons.mp hx with h | h
      · rw [h]; exact hq
      · exact h1 x h

/-! ## set_priority characterization -/

theorem set_priority_loop_eq (total : Nat) (ids : List Int) (k : Nat) (st : Store)
    (hN : (st.map Record.id).Nodup) (hids : ids.Nodup) :
    (ids.enumFrom k).foldl (set_priority_step total) st =
      st.map (fun r => if r.id ∈ ids
        then { r with priority := ((k + idxOf r.id ids : Nat) : Int) - (total : Int) }
        else r) := by
  induction ids generalizing k st with
  | nil => simp
  | cons i rest ih =>
    have hirest : i ∉ rest := (List.nodup_cons.mp hids).1
    have hrest : rest.Nodup := (List.nodup_cons.mp hids).2
    simp only [List.enumFrom_cons, List.foldl_cons]
    have hstep : set_priority_step total st (k, i) =
        st.map (fun r => if r.id = i
          then { r with priority := (k : Int) - (total : Int) } else r) := by
      unfold set_priority_step
      exact updateFirst_id_eq_map i _ st hN
    rw [hstep]
    have hN' : ((st.map (fun r => if r.id = i
        then { r with priority := (k : Int) - (total : Int) } else r)).map
          Record.id).Nodup := by
      rw [List.map_map]
      have hcomp : (Record.id ∘ fun r => if r.id = i
          then { r with priority := (k : Int) - (total : Int) } else r) =
            Record.id := by
        funext r
        by_cases h : r.id = i <;> simp [Function.comp, h]
      rw [hcomp]
      exact hN
    rw [ih (k + 1) _ hN' hrest, List.map_map]
    apply List.map_congr_left
    intro r _
    by_cases hri : r.id = i
    · have hnotrest : r.id ∉ rest := by rw [hri]; exact hirest
      simp only [Function.comp]
      rw [if_pos hri]
      have : ({ r with priority := (k : Int) - (total : Int) } : Record).id = r.id := rfl
      rw [show (if ({ r with priority := (k : Int) - (total : Int) } : Record).id ∈ rest
          then { ({ r with priority := (k : Int) - (total : Int) } : Record) with
            priority := (((k + 1) + idxOf ({ r with priority := (k : Int) - (total : Int) } : Record).id rest : Nat) : Int) - (total : Int) }
          else ({ r with priority := (k : Int) - (total : Int) } : Record)) =
            ({ r with priority := (k : Int) - (total : Int) } : Record)
        from if_neg (by rw [this]; exact hnotrest)]
      rw [if_pos (show r.id ∈ i :: rest from by rw [hri]; exact List.mem_cons_self _ _)]
      have hidx : idxOf r.id (i :: rest) = 0 := by rw [hri]; exact idxOf_cons_self i rest
      rw [hidx]
      simp
    · simp only [Function.comp]
      rw [if_neg hri]
      by_cases hmem : r.id ∈ rest
      · rw [if_pos hmem, if_pos (List.mem_cons_of_mem _ hmem)]
        have hidx : idxOf r.id (i :: rest) = idxOf r.id rest + 1 :=
          idxOf_cons_ne rest (fun h => hri h.symm)
        rw [hidx]
        have harith : (((k + 1) + idxOf r.id rest : Nat) : Int) - (total : Int) =
            ((k + (idxOf r.id rest + 1) : Nat) : Int) - (total : Int) := by
          push_cast
          ring
        rw [harith]
      · rw [if_neg hmem,
          if_neg (show r.id ∉ i :: rest from by
            intro hc
            rcases List.mem_cons.mp hc with h | h
            · exact hri h
            · exact hmem h)]

theorem set_priority_eq (ids : List Int) (st : Store)
    (hN : (st.map Record.id).Nodup) (hids : ids.Nodup) :
    set_priority ids st = st.map (fun r =>
      if r.id ∈ ids
      then { r with priority := (idxOf r.id ids : Int) - (ids.length : Int) }
      else { r with priority := 0 }) := by
  simp only [set_priority]
  have henum : ids.enum = ids.enumFrom 0 := rfl
  rw [henum, set_priority_loop_eq ids.length ids 0 st hN hids, List.map_map]
  apply List.map_congr_left
  intro r _
  by_cases h : r.id ∈ ids
  · simp only [Function.comp]
    rw [if_pos h]
    have hid : ({ r with priority := ((0 + idxOf r.id ids : Nat) : Int) - (ids.length : Int) } : Record).id = r.id := rfl
    rw [if_pos (show ({ r with priority := ((0 + idxOf r.id ids : Nat) : Int) - (ids.length : Int) } : Record).id ∈ ids from by rw [hid]; exact h)]
    simp only [Nat.zero_add]
    rw [if_pos h]
  · simp only [Function.comp]
    rw [if_neg h, if_neg h, if_neg h]

theorem set_priority_map_id (ids : List Int) (st : Store)
    (hN : (st.map Record.id).Nodup) (hids : ids.Nodup) :
    (set_priority ids st).map Record.id = st.map Record.id := by
  rw [set_priority_eq ids st hN hids, List.map_map]
  apply List.map_congr_left
  intro r _
  by_cases h : r.id ∈ ids <;> simp [Function.comp, h]

theorem pendingEnum_map (g : Record → Record)
    (hg : ∀ r, (g r).stop = r.stop ∧ (g r).status = r.status) (st : Store) :
    pendingEnum (st.map g) = (pendingEnum st).map (Prod.map id g) := by
  unfold pendingEnum
  rw [List.enum_map, List.filter_map]
  congr 1
  apply List.filter_congr
  intro x _
  simp only [Function.comp, Prod.map]
  unfold pendingFilter
  rw [(hg x.2).1, (hg x.2).2]

theorem pendingEnum_map_snd (st : Store) :
    (pendingEnum st).map (fun x => x.2) = st.filter pendingFilter := by
  unfold pendingEnum
  have h : st.enum = st.enumFrom 0 := rfl
  rw [h]
  exact map_snd_filter_enumFrom pendingFilter 0 st

/-!
## C10: `set_priority([])` resets all priorities

With an empty id list the promotion loop runs zero times and the clear
phase `update_many({"id": {"$nin": []}}, {"$set": {"priority": 0}})`
matches every document.
-/

/-- C10: `set_priority []` promotes nothing and resets every record's
priority to 0; afterwards the dequeue sequence is exactly the pending,
unstopped records in insertion order (with priority 0). -/
theorem C10_set_priority_empty (st : Store) :
    set_priority [] st = st.map (fun r => { r with priority := 0 }) ∧
      get_priority_all (set_priority [] st) =
        (st.filter pendingFilter).map (fun r => { r with priority := 0 }) := by
  have h1 : set_priority [] st = st.map (fun r => { r with priority := 0 }) := by
    simp [set_priority]
  refine ⟨h1, ?_⟩
  rw [h1]
  have hg : ∀ r : Record, (({ r with priority := 0 } : Record)).stop = r.stop ∧
      (({ r with priority := 0 } : Record)).status = r.status :=
    fun r => ⟨rfl, rfl⟩
  have hpe := pendingEnum_map (fun r => { r with priority := 0 }) hg st
  unfold get_priority_all sortedPending
  rw [hpe]
  have hsorted : ((pendingEnum st).map
      (Prod.map id (fun r => { r with priority := 0 }))).Pairwise queueLe := by
    rw [List.pairwise_map]
    refine (pendingEnum_pairwise_fst_lt st).imp ?_
    intro a b hab
    right
    exact ⟨rfl, Nat.le_of_lt hab⟩
  rw [List.Sorted.insertionSort_eq hsorted, List.map_map]
  rw [← pendingEnum_map_snd st, List.map_map]
  rfl

/-!
## C3: `set_priority` promotes the listed ids to the front
-/

/-- C3: for a non-empty, duplicate-free list of ids and a store with
unique ids, `set_priority` gives every record whose id is listed the
strictly negative priority (list index − list length) — strictly
increasing in list order — and resets every unlisted record's priority
to 0.  The dequeue sequence afterwards is a block of listed records,
ordered by their position in the id list, followed by a block of
unlisted records: every listed item is dequeued before every unlisted
item, regardless of prior priorities. -/
theorem C3_set_priority_promotes (ids : List Int) (st : Store)
    (hne : ids ≠ []) (hids : ids.Nodup) (hN : (st.map Record.id).Nodup) :
    (∀ r ∈ set_priority ids st, r.id ∈ ids →
        r.priority = (idxOf r.id ids : Int) - (ids.length : Int) ∧ r.priority < 0) ∧
      (∀ r ∈ set_priority ids st, r.id ∉ ids → r.priority = 0) ∧
      (∃ l1 l2, get_priority_all (set_priority ids st) = l1 ++ l2 ∧
        (∀ r ∈ l1, r.id ∈ ids) ∧ (∀ r ∈ l2, r.id ∉ ids) ∧
        l1.Pairwise (fun a b => idxOf a.id ids < idxOf b.id ids)) := by
  have hmap := set_priority_eq ids st hN hids
  have hlisted : ∀ r ∈ set_priority ids st, r.id ∈ ids →
      r.priority = (idxOf r.id ids : Int) - (ids.length : Int) ∧ r.priority < 0 := by
    intro r hr hrid
    rw [hmap] at hr
    obtain ⟨r0, _, hr0⟩ := List.mem_map.mp hr
    by_cases h0 : r0.id ∈ ids
    · rw [if_pos h0] at hr0
      subst hr0
      have hlt : idxOf r0.id ids < ids.length := idxOf_lt_length h0
      constructor
      · rfl
      · simp only []
        omega
    · rw [if_neg h0] at hr0
      subst hr0
      exact absurd hrid h0
  have hunlisted : ∀ r ∈ set_priority ids st, r.id ∉ ids → r.priority = 0 := by
    intro r hr hrid
    rw [hmap] at hr
    obtain ⟨r0, _, hr0⟩ := List.mem_map.mp hr
    by_cases h0 : r0.id ∈ ids
    · rw [if_pos h0] at hr0
      subst hr0
      exact absurd h0 hrid
    · rw [if_neg h0] at hr0
      subst hr0
      rfl
  refine ⟨hlisted, hunlisted, ?_⟩
  have hN' : ((set_priority ids st).map Record.id).Nodup := by
    rw [set_priority_map_id ids st hN hids]
    exact hN
  -- Members of the sorted query are records of the updated store.
  have hmem : ∀ x ∈ sortedPending (set_priority ids st),
      x.2 ∈ set_priority ids st ∧ (set_priority ids st).get? x.1 = some x.2 := by
    intro x hx
    have h := mem_pendingEnum (mem_sortedPending.mp hx)
    exact ⟨List.get?_mem h.1, h.1⟩
  -- Split the sorted query: "unlisted" is forward-closed under queueLe.
  obtain ⟨p1, p2, hsplit, hp1, hp2⟩ :=
    pairwise_split (sortedPending_sorted (set_priority ids st))
      (Q := fun x => x.2.id ∉ ids)
      (by
        intro a b ha hb hab haq hbmem
        have hapr : a.2.priority = 0 := hunlisted a.2 (hmem a ha).1 haq
        have hbpr := hlisted b.2 (hmem b hb).1 hbmem
        rcases hab with h | ⟨h, _⟩
        · rw [hapr] at h
          omega
        · rw [hapr] at h
          omega)
  refine ⟨p1.map (fun x => x.2), p2.map (fun x => x.2), ?_, ?_, ?_, ?_⟩
  · unfold get_priority_all
    rw [hsplit, List.map_append]
  · intro r hr
    obtain ⟨x, hx, hxr⟩ := List.mem_map.mp hr
    subst hxr
    have := hp1 x hx
    simp only [not_not] at this
    exact this
  · intro r hr
    obtain ⟨x, hx, hxr⟩ := List.mem_map.mp hr
    subst hxr
    exact hp2 x hx
  · rw [List.pairwise_map]
    have hsub : p1 <+ sortedPending (set_priority ids st) := by
      rw [hsplit]
      exact List.sublist_append_left p1 p2
    have hple : p1.Pairwise queueLe :=
      List.Pairwise.sublist hsub (sortedPending_sorted _)
    have hpne : p1.Pairwise (fun a b => a.1 ≠ b.1) :=
      List.Pairwise.sublist hsub
        (List.pairwise_map.mp (sortedPending_fst_nodup _))
    refine (hple.and hpne).imp_of_mem ?_
    intro x y hx hy ⟨hxy, hne⟩
    have hxs := hmem x (hsub.subset hx)
    have hys := hmem y (hsub.subset hy)
    have hxl : x.2.id ∈ ids := by
      have := hp1 x hx
      simpa only [not_not] using this
    have hyl : y.2.id ∈ ids := by
      have := hp1 y hy
      simpa only [not_not] using this
    have hxpr := (hlisted x.2 hxs.1 hxl).1
    have hypr := (hlisted y.2 hys.1 hyl).1
    rcases hxy with h | ⟨h, _⟩
    · rw [hxpr, hypr] at h
      omega
    · rw [hxpr, hypr] at h
      have hidx : idxOf x.2.id ids = idxOf y.2.id ids := by omega
      have hid : x.2.id = y.2.id := idxOf_inj hxl hyl hidx
      have hpos : x.1 = y.1 := get?_id_inj hN' hxs.2 hys.2 hid
      exact absurd hpos hne

/-- Witness for C3 at the concrete store `c3store` (records 21, 22, 23
inserted in that order) and the id list [23, 21]: the promoted record
23 ends with priority 0 − 2 = −2. -/
theorem C3_set_priority_promotes_witness :
    (([23, 21] : List Int) ≠ [] ∧ ([23, 21] : List Int).Nodup ∧
        (c3store.map Record.id).Nodup) ∧
      (({ c3r3 with priority := -2 } : Record).priority =
          (idxOf ({ c3r3 with priority := -2 } : Record).id [23, 21] : Int) -
            (([23, 21] : List Int).length : Int) ∧
        ({ c3r3 with priority := -2 } : Record).priority < 0) :=
  ⟨⟨by decide, by decide, by decide⟩,
    (C3_set_priority_promotes [23, 21] c3store (by decide) (by decide)
        (by decide)).1
      { c3r3 with priority := -2 } (by decide) (by decide)⟩

/-! ## Worker lemmas -/

theorem process_media_ok_type {cp cv : Attachment → Except String String}
    {a : Attachment} {x : String} (h : process_media cp cv a = Except.ok x) :
    a.type = "PHOTO" ∨ a.type = "VIDEO" := by
  unfold process_media at h
  by_cases h1 : a.type = "PHOTO"
  · exact Or.inl h1
  · by_cases h2 : a.type = "VIDEO"
    · exact Or.inr h2
    · rw [if_neg (by simpa using h1), if_neg (by simpa using h2)] at h
      cases h

theorem convertAll_cons_ok {cp cv : Attachment → Except String String}
    {a : Attachment} {rest : List Attachment} {ps : List String}
    (h : convertAll cp cv (a :: rest) = Except.ok ps) :
    ∃ x ps', process_media cp cv a = Except.ok x ∧
      convertAll cp cv rest = Except.ok ps' ∧ ps = x :: ps' := by
  unfold convertAll at h
  cases hpm : process_media cp cv a with
  | error e => rw [hpm] at h; cases h
  | ok x =>
    rw [hpm] at h
    cases hrest : convertAll cp cv rest with
    | error e => rw [hrest] at h; cases h
    | ok ps' =>
      rw [hrest] at h
      simp only [Except.ok.injEq] at h
      exact ⟨x, ps', rfl, rfl, h.symm⟩

theorem convertAll_ok_length {cp cv : Attachment → Except String String} :
    ∀ {atts : List Attachment} {ps : List String},
      convertAll cp cv atts = Except.ok ps → ps.length = atts.length := by
  intro atts
  induction atts with
  | nil =>
    intro ps h
    unfold convertAll at h
    simp only [Except.ok.injEq] at h
    rw [← h]
    rfl
  | cons a rest ih =>
    intro ps h
    obtain ⟨x, ps', _, hrest, hps⟩ := convertAll_cons_ok h
    rw [hps, List.length_cons, List.length_cons, ih hrest]

theorem updateFirst_map_id (p : Record → Bool) (f : Record → Record) (st : Store)
    (hf : ∀ r, (f r).id = r.id) :
    (updateFirst p f st).map Record.id = st.map Record.id := by
  induction st with
  | nil => rfl
  | cons r rest ih =>
    unfold updateFirst
    by_cases hp : p r = true
    · simp [hp, hf r]
    · have hp' : p r = false := by simpa using hp
      simp [hp', ih]

theorem handle_processing_failure_spec (i : Int) (e : String) (t : Nat) (st : Store)
    (hN : (st.map Record.id).Nodup) (hmem : i ∈ st.map Record.id) :
    ∃ r ∈ handle_processing_failure i e t st,
      r.id = i ∧ r.status = "failed" ∧ r.stop = true ∧ r.error = [e] := by
  have hmap := updateFirst_id_eq_map i
    (fun r => { r with status := "failed", stop := true, error := [e],
                       updated_at := some t }) st hN
  obtain ⟨r0, hr0, hr0i⟩ := List.mem_map.mp hmem
  have hin : ({ r0 with status := "failed", stop := true, error := [e],
                        updated_at := some t } : Record) ∈
      handle_processing_failure i e t st := by
    unfold handle_processing_failure
    rw [hmap]
    exact List.mem_map.mpr ⟨r0, hr0, by rw [if_pos hr0i]⟩
  exact ⟨_, hin, hr0i, rfl, rfl, rfl⟩

/-- Exhaustive case analysis of one `upload_media` invocation: empty
queue, IndexError on an empty attachment list, conversion failure,
publish failure, and success. -/
theorem upload_media_spec (cp cv : Attachment → Except String String)
    (pub : Except String Unit) (now : Nat) (st : Store) :
    (get_next_queue_item st = none ∧
      upload_media cp cv pub now st = ⟨false, st, []⟩) ∨
    (∃ item, get_next_queue_item st = some item ∧
      ((item.attachments = [] ∧
        upload_media cp cv pub now st =
          ⟨false, handle_processing_failure item.id "list index out of range" now st,
            [Event.statusWrite item.id "failed"]⟩) ∨
      (∃ e, convertAll cp cv item.attachments = Except.error e ∧
        upload_media cp cv pub now st =
          ⟨false, handle_processing_failure item.id e now st,
            [Event.statusWrite item.id "failed"]⟩) ∨
      (∃ ps e, item.attachments ≠ [] ∧
        convertAll cp cv item.attachments = Except.ok ps ∧
        pub = Except.error e ∧
        upload_media cp cv pub now st =
          ⟨false, handle_processing_failure item.id e now
              (update_queue_status item.id "uploading" now st),
            [Event.statusWrite item.id "uploading",
              Event.statusWrite item.id "failed"]⟩) ∨
      (∃ ps, item.attachments ≠ [] ∧
        convertAll cp cv item.attachments = Except.ok ps ∧
        pub = Except.ok () ∧
        upload_media cp cv pub now st =
          ⟨true, update_queue_status item.id "success" now
              (update_queue_status item.id "uploading" now st),
            [Event.statusWrite item.id "uploading",
              Event.statusWrite item.id "success",
              Event.mediaDelete item.id]⟩))) := by
  cases hget : get_next_queue_item st with
  | none =>
    left
    exact ⟨rfl, by simp only [upload_media, hget]⟩
  | some item =>
    right
    refine ⟨item, rfl, ?_⟩
    cases hatt : item.attachments with
    | nil =>
      left
      exact ⟨rfl, by simp only [upload_media, hget, hatt]⟩
    | cons a0 rest =>
      cases hconv : convertAll cp cv (a0 :: rest) with
      | error e =>
        right; left
        refine ⟨e, rfl, ?_⟩
        simp only [upload_media, hget, hatt, hconv]
      | ok ps =>
        obtain ⟨x, ps', hpm, hrest, hps⟩ := convertAll_cons_ok hconv
        have hne2 : ps.isEmpty = false := by rw [hps]; rfl
        have hlen : ps.length = rest.length + 1 := by
          have := convertAll_ok_length hconv
          simpa using this
        cases pub with
        | error e =>
          right; right; left
          refine ⟨ps, e, ?_, rfl, rfl, ?_⟩
          · simp
          · have hpr : (if ps.length > 1 then (Except.error e : Except String Unit)
                else if (if (a0 :: rest).length > 1 then "ALBUM" else a0.type) == "PHOTO" then Except.error e
                else if (if (a0 :: rest).length > 1 then "ALBUM" else a0.type) == "VIDEO" then Except.error e
                else Except.ok ()) = Except.error e := by
              by_cases hlen1 : ps.length > 1
              · rw [if_pos hlen1]
              · have hrest0 : rest.length = 0 := by omega
                have hrestnil : rest = [] := List.length_eq_zero.mp hrest0
                have hmt : (if (a0 :: rest).length > 1 then "ALBUM" else a0.type) = a0.type := by
                  rw [hrestnil]
                  rfl
                rw [if_neg hlen1, hmt]
                rcases process_media_ok_type hpm with ht | ht
                · rw [ht]
                  rfl
                · rw [ht]
                  rfl
            simp only [upload_media, hget, hatt, hconv, hne2, Bool.false_eq_true,
              if_false]
            rw [hpr]
        | ok u =>
          right; right; right
          refine ⟨ps, ?_, rfl, rfl, ?_⟩
          · simp
          · have hpr : (if ps.length > 1 then (Except.ok u : Except String Unit)
                else if (if (a0 :: rest).length > 1 then "ALBUM" else a0.type) == "PHOTO" then Except.ok u
                else if (if (a0 :: rest).length > 1 then "ALBUM" else a0.type) == "VIDEO" then Except.ok u
                else Except.ok ()) = Except.ok u := by
              by_cases hlen1 : ps.length > 1
              · rw [if_pos hlen1]
              · have hrest0 : rest.length = 0 := by omega
                have hrestnil : rest = [] := List.length_eq_zero.mp hrest0
                have hmt : (if (a0 :: rest).length > 1 then "ALBUM" else a0.type) = a0.type := by
                  rw [hrestnil]
                  rfl
                rw [if_neg hlen1, hmt]
                rcases process_media_ok_type hpm with ht | ht
                · rw [ht]
                  rfl
                · rw [ht]
                  rfl
            simp only [upload_media, hget, hatt, hconv, hne2, Bool.false_eq_true,
              if_false]
            rw [hpr]

theorem update_queue_status_map_id (i : Int) (s : String) (t : Nat) (st : Store) :
    (update_queue_status i s t st).map Record.id = st.map Record.id :=
  updateFirst_map_id _ _ st (fun _ => rfl)

theorem item_id_mem_of_get_next {st : Store} {item : Record}
    (hget : get_next_queue_item st = some item) :
    item.id ∈ st.map Record.id := by
  rw [get_next_queue_item_eq_get_first] at hget
  exact List.mem_map.mpr ⟨item, (get_first_mem hget).1, rfl⟩

/-!
## C6: conversion/publish exceptions are contained

Any exception raised inside the conversion loop or the publisher call is
caught by `upload_media`'s `except` clause, which marks the item failed
(`status="failed"`, `stop=True`, `error=[str(e)]`) and returns `False`
instead of re-raising, so a failure never crashes the worker loop.
-/

/-- C6: if the worker dequeues `item` and either (a) the conversion of
its attachments raises with message `e`, or (b) conversion succeeds and
the publisher call raises with message `e` (for a non-empty attachment
list), then `upload_media` returns `false` (it does not propagate the
exception) and the store afterwards holds the item with
`status = "failed"`, `stop = true` and `error = [e]`. -/
theorem C6_worker_failure_contained (cp cv : Attachment → Except String String)
    (pub : Except String Unit) (now : Nat) (st : Store) (item : Record)
    (hN : (st.map Record.id).Nodup)
    (hget : get_next_queue_item st = some item) :
    (∀ e, convertAll cp cv item.attachments = Except.error e →
        (upload_media cp cv pub now st).ok = false ∧
        ∃ r ∈ (upload_media cp cv pub now st).store,
          r.id = item.id ∧ r.status = "failed" ∧ r.stop = true ∧ r.error = [e]) ∧
    (∀ ps e, item.attachments ≠ [] →
        convertAll cp cv item.attachments = Except.ok ps →
        pub = Except.error e →
        (upload_media cp cv pub now st).ok = false ∧
        ∃ r ∈ (upload_media cp cv pub now st).store,
          r.id = item.id ∧ r.status = "failed" ∧ r.stop = true ∧ r.error = [e]) := by
  have hmem : item.id ∈ st.map Record.id := item_id_mem_of_get_next hget
  rcases upload_media_spec cp cv pub now st with ⟨hnone, _⟩ | ⟨item', hget', hcases⟩
  · rw [hget] at hnone
    cases hnone
  · rw [hget] at hget'
    injection hget' with hitem
    subst hitem
    constructor
    · intro e hconv
      rcases hcases with ⟨hattnil, _⟩ | ⟨e', hconv', hrun⟩ |
        ⟨ps, e', _, hconv', _, _⟩ | ⟨ps, _, hconv', _, _⟩
      · rw [hattnil] at hconv
        simp [convertAll] at hconv
      · rw [hconv] at hconv'
        injection hconv' with he
        subst he
        rw [hrun]
        exact ⟨rfl, handle_processing_failure_spec item.id e now st hN hmem⟩
      · rw [hconv] at hconv'
        cases hconv'
      · rw [hconv] at hconv'
        cases hconv'
    · intro ps e hattne hconv hpube
      rcases hcases with ⟨hattnil, _⟩ | ⟨e', hconv', _⟩ |
        ⟨ps', e', _, hconv', hpub, hrun⟩ | ⟨ps', _, hconv', hpub, _⟩
      · exact absurd hattnil hattne
      · rw [hconv] at hconv'
        cases hconv'
      · rw [hpube] at hpub
        injection hpub with he
        subst he
        rw [hrun]
        refine ⟨rfl, ?_⟩
        have hN1 : ((update_queue_status item.id "uploading" now st).map
            Record.id).Nodup := by
          rw [update_queue_status_map_id]
          exact hN
        have hmem1 : item.id ∈ (update_queue_status item.id "uploading" now st).map
            Record.id := by
          rw [update_queue_status_map_id]
          exact hmem
        exact handle_processing_failure_spec item.id e now _ hN1 hmem1
      · rw [hpube] at hpub
        cases hpub

/-- Witness for C6 at the concrete one-item store `wStore` with an
always-failing conversion oracle: the run returns false and the record
ends failed with the captured message. -/
theorem C6_worker_failure_contained_witness :
    ((wStore.map Record.id).Nodup ∧ get_next_queue_item wStore = some wRec ∧
        convertAll convBad convBad wRec.attachments = Except.error "boom") ∧
      ((upload_media convBad convBad (Except.ok ()) 0 wStore).ok = false ∧
        ∃ r ∈ (upload_media convBad convBad (Except.ok ()) 0 wStore).store,
          r.id = wRec.id ∧ r.status = "failed" ∧ r.stop = true ∧
            r.error = ["boom"]) :=
  ⟨⟨by decide, by decide, rfl⟩,
    (C6_worker_failure_contained convBad convBad (Except.ok ()) 0 wStore wRec
        (by decide) (by decide)).1 "boom" rfl⟩

/-!
## C7: there is no transition to "processing"

worker.py `upload_media` never writes the status "processing": the item
goes straight from pending to "uploading" (after conversion!), then to
"success" or "failed"; a conversion failure writes "failed" directly.
(The spec's step 2 "Transition to processing" exists only in the legacy
bot-side uploader `src/bot/utils/instagram.py`, not in the worker the
claim cites.)
-/

/-- Counterexample for C7: a successful run over the concrete store
`wStore` performs the status writes "uploading" then "success" and
never writes "processing" — the item is not transitioned to
'processing' before conversion begins. -/
theorem C7_counterexample :
    (upload_media convOk convOk (Except.ok ()) 0 wStore).events =
        [Event.statusWrite 101 "uploading", Event.statusWrite 101 "success",
          Event.mediaDelete 101] ∧
      Event.statusWrite 101 "processing" ∉
        (upload_media convOk convOk (Except.ok ()) 0 wStore).events ∧
      wRec.status = "pending" ∧ wRec.stop = false := by
  refine ⟨by decide, by decide, by decide, by decide⟩

/-- C7 (amended): whenever the worker finds a pending item, the sequence
of status-setting writes of that invocation is one of
["uploading", "success"], ["uploading", "failed"], or ["failed"] —
there is no write of "processing"; the lifecycle implemented by
worker.py is `pending → uploading → {success | failed}`, with
conversion failures going directly from pending to failed. -/
theorem C7_no_processing_transition (cp cv : Attachment → Except String String)
    (pub : Except String Unit) (now : Nat) (st : Store) (item : Record)
    (hget : get_next_queue_item st = some item) :
    ((upload_media cp cv pub now st).events =
        [Event.statusWrite item.id "uploading",
          Event.statusWrite item.id "success", Event.mediaDelete item.id] ∨
      (upload_media cp cv pub now st).events =
        [Event.statusWrite item.id "uploading",
          Event.statusWrite item.id "failed"] ∨
      (upload_media cp cv pub now st).events =
        [Event.statusWrite item.id "failed"]) ∧
    ∀ i s, Event.statusWrite i s ∈ (upload_media cp cv pub now st).events →
      s ≠ "processing" := by
  rcases upload_media_spec cp cv pub now st with ⟨hnone, _⟩ | ⟨item', hget', hcases⟩
  · rw [hget] at hnone
    cases hnone
  · rw [hget] at hget'
    injection hget' with hitem
    subst hitem
    rcases hcases with ⟨_, hrun⟩ | ⟨e, _, hrun⟩ | ⟨ps, e, _, _, _, hrun⟩ |
      ⟨ps, _, _, _, hrun⟩ <;> rw [hrun]
    · refine ⟨Or.inr (Or.inr rfl), ?_⟩
      intro i s hmem
      simp only [List.mem_singleton, Event.statusWrite.injEq] at hmem
      rw [hmem.2]
      decide
    · refine ⟨Or.inr (Or.inr rfl), ?_⟩
      intro i s hmem
      simp only [List.mem_singleton, Event.statusWrite.injEq] at hmem
      rw [hmem.2]
      decide
    · refine ⟨Or.inr (Or.inl rfl), ?_⟩
      intro i s hmem
      simp only [List.mem_cons, List.mem_singleton, Event.statusWrite.injEq,
        List.not_mem_nil, or_false] at hmem
      rcases hmem with h | h <;> rw [h.2] <;> decide
    · refine ⟨Or.inl rfl, ?_⟩
      intro i s hmem
      simp only [List.mem_cons, List.not_mem_nil, or_false] at hmem
      rcases hmem with h | h | h
      · injection h with h1 h2
        rw [h2]
        decide
      · injection h with h1 h2
        rw [h2]
        decide
      · cases h

/-- Witness for C7 (amended) at the concrete store `wStore`: the
successful run's write sequence is "uploading" then "success". -/
theorem C7_no_processing_transition_witness :
    get_next_queue_item wStore = some wRec ∧
      ((upload_media convOk convOk (Except.ok ()) 0 wStore).events =
          [Event.statusWrite wRec.id "uploading",
            Event.statusWrite wRec.id "success", Event.mediaDelete wRec.id] ∨
        (upload_media convOk convOk (Except.ok ()) 0 wStore).events =
          [Event.statusWrite wRec.id "uploading",
            Event.statusWrite wRec.id "failed"] ∨
        (upload_media convOk convOk (Except.ok ()) 0 wStore).events =
          [Event.statusWrite wRec.id "failed"]) :=
  ⟨by decide,
    (C7_no_processing_transition convOk convOk (Except.ok ()) 0 wStore wRec
        (by decide)).1⟩

/-!
## C8: the media directory is deleted exactly on the success path
-/

/-- C8: one worker invocation removes the media-store directory if and
only if it returns success; on the success path the deletion is the
last effect, after the "success" status write (and the publisher call
succeeded); on every failure path (and on an empty queue) no media
directory is removed. -/
theorem C8_media_deleted_iff_success (cp cv : Attachment → Except String String)
    (pub : Except String Unit) (now : Nat) (st : Store) :
    ((upload_media cp cv pub now st).ok = true →
        pub = Except.ok () ∧
        ∃ i, (upload_media cp cv pub now st).events =
          [Event.statusWrite i "uploading", Event.statusWrite i "success",
            Event.mediaDelete i]) ∧
    ((upload_media cp cv pub now st).ok = false →
        ∀ i, Event.mediaDelete i ∉ (upload_media cp cv pub now st).events) ∧
    ((∃ i, Event.mediaDelete i ∈ (upload_media cp cv pub now st).events) ↔
        (upload_media cp cv pub now st).ok = true) := by
  rcases upload_media_spec cp cv pub now st with ⟨_, hrun⟩ | ⟨item, _, hcases⟩
  · rw [hrun]
    refine ⟨?_, ?_, ?_, ?_⟩
    · intro h
      simp at h
    · intro _ i
      simp
    · rintro ⟨i, hi⟩
      simp at hi
    · intro h
      simp at h
  · rcases hcases with ⟨_, hrun⟩ | ⟨e, _, hrun⟩ | ⟨ps, e, _, _, _, hrun⟩ |
      ⟨ps, _, _, hpub, hrun⟩ <;> rw [hrun]
    · refine ⟨?_, ?_, ?_, ?_⟩
      · intro h
        simp at h
      · intro _ i
        simp
      · rintro ⟨i, hi⟩
        simp at hi
      · intro h
        simp at h
    · refine ⟨?_, ?_, ?_, ?_⟩
      · intro h
        simp at h
      · intro _ i
        simp
      · rintro ⟨i, hi⟩
        simp at hi
      · intro h
        simp at h
    · refine ⟨?_, ?_, ?_, ?_⟩
      · intro h
        simp at h
      · intro _ i
        simp
      · rintro ⟨i, hi⟩
        simp at hi
      · intro h
        simp at h
    · refine ⟨?_, ?_, ?_, ?_⟩
      · intro _
        exact ⟨hpub, item.id, rfl⟩
      · intro h
        simp at h
      · intro _
        rfl
      · intro _
        exact ⟨item.id, by simp⟩

/-- Witness for C8 at the concrete store `wStore`: the successful run
deleted the media directory after the "success" write, and the
publisher call succeeded. -/
theorem C8_media_deleted_iff_success_witness :
    (upload_media convOk convOk (Except.ok ()) 0 wStore).ok = true ∧
      (Except.ok () = (Except.ok () : Except String Unit) ∧
        ∃ i, (upload_media convOk convOk (Except.ok ()) 0 wStore).events =
          [Event.statusWrite i "uploading", Event.statusWrite i "success",
            Event.mediaDelete i]) :=
  ⟨by decide,
    (C8_media_deleted_iff_success convOk convOk (Except.ok ()) 0 wStore).1
      (by decide)⟩

/-!
## C9: invalid submissions are rejected whole

bot.py deletes the source message (and inserts nothing) when the
attachment count exceeds 10 (`_is_valid_message`) or when any
attachment's MIME type is not in the allow-list
(`_validate_attachments` returns `[]` on the first invalid one).
-/

/-- C9: for every inbound message that is not ignored, if its attachment
count exceeds 10 or some attachment's MIME type is outside the
photo/video allow-list, `on_message` deletes the source message and
creates no queue record (the outcome is `deleted`, not `queued`):
rejection is all-or-nothing. -/
theorem C9_invalid_submission_rejected (cfg : BotConfig) (botUserId : Int)
    (saveOk : BAttachment → Bool) (extOf : String → String) (now : Nat)
    (m : BMessage)
    (hig : should_ignore_message cfg botUserId m = false)
    (hbad : m.attachments.length > 10 ∨
      ∃ a ∈ m.attachments, MediaConfig a.contentType = none) :
    on_message cfg botUserId saveOk extOf now m = Outcome.deleted := by
  unfold on_message
  simp only [hig, Bool.false_eq_true, if_false]
  by_cases hv : is_valid_message m = true
  · have hbadmime : ∃ a ∈ m.attachments, MediaConfig a.contentType = none := by
      rcases hbad with hlen | hmime
      · exfalso
        unfold is_valid_message at hv
        by_cases h1 : m.attachments.isEmpty
        · rw [if_pos h1] at hv
          cases hv
        · rw [if_neg h1, if_pos hlen] at hv
          cases hv
      · exact hmime
    obtain ⟨a, ha, hmime⟩ := hbadmime
    have hany : m.attachments.any (fun a => !(validate a).status) = true :=
      List.any_eq_true.mpr ⟨a, ha, by simp [validate, hmime]⟩
    have hempty : validate_attachments m.attachments = [] := by
      unfold validate_attachments
      rw [if_pos hany]
    simp only [hv, Bool.not_true, Bool.false_eq_true, if_false, hempty,
      List.isEmpty_nil, if_true]
  · have hv' : is_valid_message m = false := by
      simpa using hv
    simp only [hv', Bool.not_false, if_true]

/-- Witness for C9: the concrete message `bMsgBad` (right guild/channel,
human author, one attachment with MIME type "image/gif") is deleted by
`on_message` and never queued. -/
theorem C9_invalid_submission_rejected_witness :
    (should_ignore_message bCfg 99 bMsgBad = false ∧
        (bMsgBad.attachments.length > 10 ∨
          ∃ a ∈ bMsgBad.attachments, MediaConfig a.contentType = none)) ∧
      on_message bCfg 99 (fun _ => true) (fun _ => ".gif") 0 bMsgBad =
        Outcome.deleted :=
  ⟨⟨by decide, by decide⟩,
    C9_invalid_submission_rejected bCfg 99 (fun _ => true) (fun _ => ".gif") 0
      bMsgBad (by decide) (by decide)⟩

end RMQ
